import Mathlib

/-!
# Verification of the trinomial-pricer lattice engine

A shallow embedding, over exact rational arithmetic, of the core of the
trinomial option pricer (pricing_library): the node-level probability
computation (core/node.py), the two pricing algorithms of the lattice
engine (models/tree.py), the engine construction and its configuration
guard, and the finite-difference Greek estimators
(greeks/numerical_greeks.py).

Modelling conventions:
* Python floats are modelled as rationals; the values of the
  transcendental expressions the code obtains from np.exp (for example
  exp(rate * delta_t), exp(sigma^2 * delta_t), the multiplier alpha and
  the discount factor) are supplied as explicit rational fields of the
  environment, since they are derived constants the formulas merely
  consume.
* Dates are rationals counting days (datetime arithmetic in the source
  is plain day arithmetic with fractional-day tolerances).
* A Python exception is an Except.error value; an arithmetic exception
  inside the probability formulas is modelled as a division whose
  denominator is zero (the domain errors the formulas can hit).
* The recursion-depth limit of the host interpreter is modelled as an
  explicit fuel parameter; running out of fuel is the RecursionError.
-/

namespace TrinomialPricer

/-! ## Node-level environment: the inputs Node.probas reads

`NodeEnv` collects exactly the data a single `Node` reads when computing
its transition probabilities: its own price and date, the tree-level
constants, the market dividend data, the pruning configuration, its
reachability probability `pNode`, and the price `sm` of its middle
successor (`next_mid.und_price`). -/

structure NodeEnv where
  undPrice : ℚ
  date : ℚ
  exDivDate : ℚ
  dividend : ℚ
  deltaT : ℚ
  nbSteps : ℕ
  pruning : Bool
  pMin : ℚ
  pNode : ℚ
  alpha : ℚ
  expRdt : ℚ
  exp2Rdt : ℚ
  expSig2dt : ℚ
  sm : ℚ

/-- The date one step forward: `self.date + dt.timedelta(days=self.tree.delta_t * 365)`. -/
def nextDate (e : NodeEnv) : ℚ :=
  e.date + e.deltaT * 365

/-- The fractional-day tolerance of `Node.dividend_period`:
`one_day / max(1, nb_steps) / 1000`, expressed in days. -/
def divTol (e : NodeEnv) : ℚ :=
  1 / ((max 1 e.nbSteps : ℕ) : ℚ) / 1000

/-- Embedding of `Node.dividend_period`: the ex-dividend date falls in this
forward step, tested with the fractional-day tolerance `divTol`. -/
def dividendPeriod (e : NodeEnv) : Bool :=
  decide ((e.date < e.exDivDate ∧ ¬ |e.date - e.exDivDate| < divTol e) ∧
    (e.exDivDate < nextDate e ∨ |e.exDivDate - nextDate e| < divTol e))

/-- Embedding of `Node.forward_variance`: one-step expected forward price
(dividend-adjusted when the step is a dividend period) and one-step variance
(never dividend-adjusted). `expRdt`, `exp2Rdt`, `expSig2dt` carry the values
of `exp(rate*delta_t)`, `exp(2*rate*delta_t)`, `exp(vol^2*delta_t)`. -/
def forwardVariance (e : NodeEnv) : ℚ × ℚ :=
  let pureForward := e.undPrice * e.expRdt
  let expectedValue := if dividendPeriod e then pureForward - e.dividend else pureForward
  let variance := e.undPrice ^ 2 * e.exp2Rdt * (e.expSig2dt - 1)
  (expectedValue, variance)

/-- Embedding of the `try:` body of `Node.probas`: the two closed-form
probability branches. An arithmetic exception during the evaluation (a zero
denominator in one of the divisions, or `alpha ** -2` / `alpha ** -1` at
`alpha = 0`) is the `.error` outcome. -/
def probasCompute (e : NodeEnv) : Except Unit (ℚ × ℚ × ℚ) :=
  let expectedValue := (forwardVariance e).1
  let variance := (forwardVariance e).2
  let sm := e.sm
  let alpha := e.alpha
  if dividendPeriod e = false ∨ |expectedValue - sm| < 1 / 10 ^ 12 then
    let varFactor := e.expSig2dt - 1
    let denom := (1 - alpha) * ((alpha ^ 2)⁻¹ - 1)
    if alpha = 0 ∨ denom = 0 then .error () else
      let pDown := varFactor / denom
      let pUp := pDown / alpha
      let pMid := 1 - pUp - pDown
      .ok (pUp, pMid, pDown)
  else
    if sm = 0 then .error () else
      let varianceTerm := (variance + (expectedValue + sm) * (expectedValue - sm)) / sm ^ 2
      let expectedTerm := (expectedValue - sm) / sm
      let denominator := (1 - alpha) * ((alpha ^ 2)⁻¹ - 1)
      if alpha = 0 ∨ denominator = 0 ∨ alpha - 1 = 0 then .error () else
        let pDown := (varianceTerm - (alpha + 1) * expectedTerm) / denominator
        let pUp := (expectedTerm - (alpha⁻¹ - 1) * pDown) / (alpha - 1)
        let pMid := 1 - pUp - pDown
        .ok (pUp, pMid, pDown)

/-- Embedding of `Node.probas`: the pruning short-circuit, the guarded
formula evaluation with its degenerate `(0, 1, 0)` fallback on arithmetic
exception, and the two fatal validation checks (sum within `1e-10`, each
probability inside `[0, 1]` within `1e-10`). An `.error` is the
`AssertionError` the source raises. -/
def probas (e : NodeEnv) : Except String (ℚ × ℚ × ℚ) :=
  if e.pruning = true ∧ e.pNode < e.pMin then .ok (0, 1, 0)
  else
    match probasCompute e with
    | .error _ => .ok (0, 1, 0)
    | .ok (pUp, pMid, pDown) =>
      if |pUp + pMid + pDown - 1| > 1 / 10 ^ 10 then
        .error "Probabilities sum out of tolerance"
      else if pUp < -(1 / 10 ^ 10) ∨ pUp > 1 + 1 / 10 ^ 10 then
        .error "Probability p_up out of bounds"
      else if pMid < -(1 / 10 ^ 10) ∨ pMid > 1 + 1 / 10 ^ 10 then
        .error "Probability p_mid out of bounds"
      else if pDown < -(1 / 10 ^ 10) ∨ pDown > 1 + 1 / 10 ^ 10 then
        .error "Probability p_down out of bounds"
      else .ok (pUp, pMid, pDown)

/-! ## Spec-side probability formulas

These follow the wording of the specification (for the refinement-style
comparison of claim C4), not the source. -/

/-- The simplified formula as the spec states it:
`pDown = (exp(sigma^2 dt) - 1) / ((1 - alpha) (alpha^-2 - 1))`,
`pUp = pDown / alpha`, `pMid = 1 - pUp - pDown`. -/
def specSimplifiedProbas (e : NodeEnv) : ℚ × ℚ × ℚ :=
  let pDown := (e.expSig2dt - 1) / ((1 - e.alpha) * ((e.alpha ^ 2)⁻¹ - 1))
  let pUp := pDown / e.alpha
  (pUp, 1 - pUp - pDown, pDown)

/-- The spec's `expectedTerm = (F - middlePrice) / middlePrice`. -/
def specExpectedTerm (e : NodeEnv) : ℚ :=
  ((forwardVariance e).1 - e.sm) / e.sm

/-- The spec's `varianceTerm = (Var + (F + middlePrice)(F - middlePrice)) / middlePrice^2`. -/
def specVarianceTerm (e : NodeEnv) : ℚ :=
  ((forwardVariance e).2 + ((forwardVariance e).1 + e.sm) * ((forwardVariance e).1 - e.sm)) / e.sm ^ 2

/-- The general three-equation formula as the spec states it, expressed via
`specExpectedTerm` and `specVarianceTerm`: `pDown`, then `pUp`, then `pMid`
by subtraction. -/
def specGeneralProbas (e : NodeEnv) : ℚ × ℚ × ℚ :=
  let pDown := (specVarianceTerm e - (e.alpha + 1) * specExpectedTerm e) /
    ((1 - e.alpha) * ((e.alpha ^ 2)⁻¹ - 1))
  let pUp := (specExpectedTerm e - (e.alpha⁻¹ - 1) * pDown) / (e.alpha - 1)
  (pUp, 1 - pUp - pDown, pDown)

/-! ## Concrete node environments used as evaluation points -/

/-- A dividend-free node: `alpha = 2`, `exp(sigma^2 dt) = 11/8`, ex-dividend
date at the far-future sentinel. The simplified branch yields the valid
probability triple `(1/4, 1/4, 1/2)`. -/
def envSimple : NodeEnv :=
  { undPrice := 100, date := 0, exDivDate := 766644, dividend := 0, deltaT := 1 / 10,
    nbSteps := 10, pruning := false, pMin := 0, pNode := 1, alpha := 2, expRdt := 1,
    exp2Rdt := 1, expSig2dt := 11 / 8, sm := 100 }

/-- A pruned node: pruning on, reachability `1/10` below the floor `1/2`,
with degenerate market constants (`alpha = 0`, `sm = 0`). -/
def envPruned : NodeEnv :=
  { undPrice := 100, date := 0, exDivDate := 766644, dividend := 0, deltaT := 1 / 10,
    nbSteps := 10, pruning := true, pMin := 1 / 2, pNode := 1 / 10, alpha := 0, expRdt := 1,
    exp2Rdt := 1, expSig2dt := 11 / 8, sm := 0 }

/-- A node on which the formula evaluation hits an arithmetic exception:
`alpha = 1` makes the simplified-branch denominator zero. -/
def envDegenerate : NodeEnv :=
  { undPrice := 100, date := 0, exDivDate := 766644, dividend := 0, deltaT := 1 / 10,
    nbSteps := 10, pruning := false, pMin := 0, pNode := 1, alpha := 1, expRdt := 1,
    exp2Rdt := 1, expSig2dt := 11 / 8, sm := 100 }

/-- A node whose ex-dividend date falls `1/2000` of a day after the node
date: strictly inside the step `(date, date + deltaT * 365]`, but closer to
the step start than the fractional-day tolerance `divTol = 1/1000`. -/
def envDivBoundary : NodeEnv :=
  { undPrice := 100, date := 0, exDivDate := 1 / 2000, dividend := 5, deltaT := 1,
    nbSteps := 1, pruning := false, pMin := 0, pNode := 1, alpha := 2, expRdt := 3 / 2,
    exp2Rdt := 9 / 4, expSig2dt := 11 / 8, sm := 150 }

/-! ## Claims C2, C3, C4, C6 on the probability computation -/

/-- C2: whenever `Node.probas` completes without raising, the stored triple
sums to 1 within `1e-10` and each component lies in `[0,1]` within `1e-10`;
and whenever the raw formula evaluation of a non-pruned node produces a
triple violating these bounds, `probas` raises the fatal internal
consistency error instead of storing a corrected triple. -/
theorem probas_validated (e : NodeEnv) (pUp pMid pDown : ℚ) :
    (probas e = .ok (pUp, pMid, pDown) →
      |pUp + pMid + pDown - 1| ≤ 1 / 10 ^ 10 ∧
      -(1 / 10 ^ 10) ≤ pUp ∧ pUp ≤ 1 + 1 / 10 ^ 10 ∧
      -(1 / 10 ^ 10) ≤ pMid ∧ pMid ≤ 1 + 1 / 10 ^ 10 ∧
      -(1 / 10 ^ 10) ≤ pDown ∧ pDown ≤ 1 + 1 / 10 ^ 10) ∧
    (¬ (e.pruning = true ∧ e.pNode < e.pMin) →
      probasCompute e = .ok (pUp, pMid, pDown) →
      (1 / 10 ^ 10 < |pUp + pMid + pDown - 1| ∨
        pUp < -(1 / 10 ^ 10) ∨ 1 + 1 / 10 ^ 10 < pUp ∨
        pMid < -(1 / 10 ^ 10) ∨ 1 + 1 / 10 ^ 10 < pMid ∨
        pDown < -(1 / 10 ^ 10) ∨ 1 + 1 / 10 ^ 10 < pDown) →
      ∃ msg, probas e = .error msg) := by
  constructor
  · intro hok
    unfold probas at hok
    split at hok
    · simp only [Except.ok.injEq, Prod.mk.injEq] at hok
      obtain ⟨h1, h2, h3⟩ := hok
      subst h1; subst h2; subst h3
      norm_num
    · split at hok
      · simp only [Except.ok.injEq, Prod.mk.injEq] at hok
        obtain ⟨h1, h2, h3⟩ := hok
        subst h1; subst h2; subst h3
        norm_num
      · split at hok
        · exact absurd hok (by simp)
        · split at hok
          · exact absurd hok (by simp)
          · split at hok
            · exact absurd hok (by simp)
            · split at hok
              · exact absurd hok (by simp)
              · rename_i hs hu hm hd
                simp only [Except.ok.injEq, Prod.mk.injEq] at hok
                obtain ⟨h1, h2, h3⟩ := hok
                subst h1; subst h2; subst h3
                push_neg at hs hu hm hd
                exact ⟨hs, hu.1, hu.2, hm.1, hm.2, hd.1, hd.2⟩
  · intro hnp hc hviol
    unfold probas
    rw [if_neg hnp, hc]
    dsimp only
    by_cases h1 : |pUp + pMid + pDown - 1| > 1 / 10 ^ 10
    · exact ⟨_, by rw [if_pos h1]⟩
    by_cases h2 : pUp < -(1 / 10 ^ 10) ∨ pUp > 1 + 1 / 10 ^ 10
    · exact ⟨_, by rw [if_neg h1, if_pos h2]⟩
    by_cases h3 : pMid < -(1 / 10 ^ 10) ∨ pMid > 1 + 1 / 10 ^ 10
    · exact ⟨_, by rw [if_neg h1, if_neg h2, if_pos h3]⟩
    by_cases h4 : pDown < -(1 / 10 ^ 10) ∨ pDown > 1 + 1 / 10 ^ 10
    · exact ⟨_, by rw [if_neg h1, if_neg h2, if_neg h3, if_pos h4]⟩
    · exfalso
      push_neg at h1 h2 h3 h4
      rcases hviol with h | h | h | h | h | h | h
      · exact absurd h1 (by simpa using not_le.2 h)
      · linarith [h2.1]
      · linarith [h2.2]
      · linarith [h3.1]
      · linarith [h3.2]
      · linarith [h4.1]
      · linarith [h4.2]

/-- Witness for C2 at the concrete dividend-free node `envSimple`. -/
theorem probas_validated_witness :
    probas envSimple = .ok (1 / 4, 1 / 4, 1 / 2) ∧
    (|(1 : ℚ) / 4 + 1 / 4 + 1 / 2 - 1| ≤ 1 / 10 ^ 10 ∧
      -(1 / 10 ^ 10) ≤ (1 : ℚ) / 4 ∧ (1 : ℚ) / 4 ≤ 1 + 1 / 10 ^ 10 ∧
      -(1 / 10 ^ 10) ≤ (1 : ℚ) / 4 ∧ (1 : ℚ) / 4 ≤ 1 + 1 / 10 ^ 10 ∧
      -(1 / 10 ^ 10) ≤ (1 : ℚ) / 2 ∧ (1 : ℚ) / 2 ≤ 1 + 1 / 10 ^ 10) := by
  have h : probas envSimple = .ok (1 / 4, 1 / 4, 1 / 2) := by
    norm_num [probas, probasCompute, forwardVariance, dividendPeriod, divTol, nextDate, envSimple, abs_eq_max_neg, max_def]
  exact ⟨h, (probas_validated envSimple (1 / 4) (1 / 4) (1 / 2)).1 h⟩

/-- C3: when pruning is enabled and the node's reachability probability is
strictly below the configured floor, `probas` short-circuits to the
degenerate triple `(0, 1, 0)`, whatever the market inputs are. -/
theorem probas_pruning_floor (e : NodeEnv) (h1 : e.pruning = true)
    (h2 : e.pNode < e.pMin) :
    probas e = .ok (0, 1, 0) := by
  unfold probas
  rw [if_pos ⟨h1, h2⟩]

/-- Witness for C3 at `envPruned` (reachability `1/10`, floor `1/2`). -/
theorem probas_pruning_floor_witness :
    envPruned.pruning = true ∧ envPruned.pNode < envPruned.pMin ∧
    probas envPruned = .ok (0, 1, 0) :=
  ⟨rfl, by norm_num [envPruned], probas_pruning_floor envPruned rfl (by norm_num [envPruned])⟩

/-- C4: for a node the pruning short-circuit does not catch, when the
formula evaluation completes, the probabilities stored by `probas` are the
raw formula output, and that output is the spec's simplified formula
exactly when there is no dividend in the step or the forward price is
within `1e-12` of the middle successor's price, and the spec's general
three-equation formula otherwise. -/
theorem probas_branch_selection (e : NodeEnv) (p raw : ℚ × ℚ × ℚ)
    (hnp : ¬ (e.pruning = true ∧ e.pNode < e.pMin))
    (hc : probasCompute e = .ok raw)
    (hok : probas e = .ok p) :
    p = raw ∧
    ((dividendPeriod e = false ∨ |(forwardVariance e).1 - e.sm| < 1 / 10 ^ 12) →
      p = specSimplifiedProbas e) ∧
    (¬ (dividendPeriod e = false ∨ |(forwardVariance e).1 - e.sm| < 1 / 10 ^ 12) →
      p = specGeneralProbas e) := by
  obtain ⟨a, b, c⟩ := raw
  have hpraw : p = (a, b, c) := by
    unfold probas at hok
    rw [if_neg hnp, hc] at hok
    dsimp only at hok
    split at hok
    · exact absurd hok (by simp)
    · split at hok
      · exact absurd hok (by simp)
      · split at hok
        · exact absurd hok (by simp)
        · split at hok
          · exact absurd hok (by simp)
          · simp only [Except.ok.injEq] at hok
            exact hok.symm
  subst hpraw
  refine ⟨rfl, ?_, ?_⟩
  · intro hcond
    unfold probasCompute at hc
    rw [if_pos hcond] at hc
    dsimp only at hc
    split at hc
    · exact absurd hc (by simp)
    · simp only [Except.ok.injEq] at hc
      rw [← hc]
      rfl
  · intro hcond
    unfold probasCompute at hc
    rw [if_neg hcond] at hc
    dsimp only at hc
    split at hc
    · exact absurd hc (by simp)
    · split at hc
      · exact absurd hc (by simp)
      · simp only [Except.ok.injEq] at hc
        rw [← hc]
        rfl

/-- Witness for C4 at `envSimple`: the simplified branch fires and the
stored triple is the spec's simplified formula. -/
theorem probas_branch_selection_witness :
    (¬ (envSimple.pruning = true ∧ envSimple.pNode < envSimple.pMin)) ∧
    probasCompute envSimple = .ok (1 / 4, 1 / 4, 1 / 2) ∧
    probas envSimple = .ok (1 / 4, 1 / 4, 1 / 2) ∧
    (((1 : ℚ) / 4, (1 : ℚ) / 4, (1 : ℚ) / 2) = ((1 : ℚ) / 4, (1 : ℚ) / 4, (1 : ℚ) / 2) ∧
      ((dividendPeriod envSimple = false ∨
          |(forwardVariance envSimple).1 - envSimple.sm| < 1 / 10 ^ 12) →
        ((1 : ℚ) / 4, (1 : ℚ) / 4, (1 : ℚ) / 2) = specSimplifiedProbas envSimple) ∧
      (¬ (dividendPeriod envSimple = false ∨
          |(forwardVariance envSimple).1 - envSimple.sm| < 1 / 10 ^ 12) →
        ((1 : ℚ) / 4, (1 : ℚ) / 4, (1 : ℚ) / 2) = specGeneralProbas envSimple)) := by
  have hnp : ¬ (envSimple.pruning = true ∧ envSimple.pNode < envSimple.pMin) := by
    norm_num [envSimple]
  have hc : probasCompute envSimple = .ok (1 / 4, 1 / 4, 1 / 2) := by
    norm_num [probasCompute, forwardVariance, dividendPeriod, divTol, nextDate,
      envSimple, abs_eq_max_neg, max_def]
  have hok : probas envSimple = .ok (1 / 4, 1 / 4, 1 / 2) := by
    norm_num [probas, probasCompute, forwardVariance, dividendPeriod, divTol, nextDate, envSimple, abs_eq_max_neg, max_def]
  exact ⟨hnp, hc, hok, probas_branch_selection envSimple _ _ hnp hc hok⟩

/-- C6: when the formula evaluation of `Node.probas` hits an arithmetic
exception, the node's probabilities degrade to the degenerate `(0, 1, 0)`
branch and no error propagates to the caller. -/
theorem probas_degrades_on_exception (e : NodeEnv)
    (h : probasCompute e = .error ()) :
    probas e = .ok (0, 1, 0) := by
  unfold probas
  split
  · rfl
  · rw [h]

/-- Witness for C6 at `envDegenerate` (`alpha = 1` zeroes the denominator). -/
theorem probas_degrades_on_exception_witness :
    probasCompute envDegenerate = .error () ∧
    probas envDegenerate = .ok (0, 1, 0) := by
  have hc : probasCompute envDegenerate = .error () := by
    norm_num [probasCompute, forwardVariance, dividendPeriod, divTol, nextDate,
      envDegenerate, abs_eq_max_neg, max_def]
  exact ⟨hc, probas_degrades_on_exception envDegenerate hc⟩

/-! ## Claim C5 on the forward value, the variance and the dividend window -/

/-- C5 counterexample: at `envDivBoundary` the ex-dividend date is strictly
inside the half-open step interval `(date, date + deltaT * 365]`, yet
`dividend_period` is false (the ex-date sits inside the fractional-day
tolerance band at the step start) and the forward price is the pure
forward `150`, not the dividend-adjusted `145` the claim requires. -/
theorem forward_dividend_window_counterexample :
    (0 < envDivBoundary.exDivDate - envDivBoundary.date ∧
      envDivBoundary.exDivDate - envDivBoundary.date ≤ envDivBoundary.deltaT * 365) ∧
    dividendPeriod envDivBoundary = false ∧
    (forwardVariance envDivBoundary).1 = 150 ∧
    (150 : ℚ) ≠
      envDivBoundary.undPrice * envDivBoundary.expRdt - envDivBoundary.dividend := by
  refine ⟨⟨by norm_num [envDivBoundary], by norm_num [envDivBoundary]⟩, ?_, ?_,
    by norm_num [envDivBoundary]⟩
  · norm_num [dividendPeriod, divTol, nextDate, envDivBoundary, abs_eq_max_neg, max_def]
  · norm_num [forwardVariance, dividendPeriod, divTol, nextDate, envDivBoundary,
      abs_eq_max_neg, max_def]

/-- C5 amended: `forward_variance` subtracts the dividend exactly when the
ex-dividend date lies in the tolerance-shifted window
`[date + divTol, date + deltaT * 365 + divTol)`, with
`divTol = 1 day / max(1, nbSteps) / 1000`; the variance is
`S^2 * exp(2 rate dt) * (exp(vol^2 dt) - 1)` unconditionally. -/
theorem forward_dividend_window_amended (e : NodeEnv) :
    (dividendPeriod e = true ↔
      e.date + divTol e ≤ e.exDivDate ∧ e.exDivDate < nextDate e + divTol e) ∧
    (forwardVariance e).1 =
      (if dividendPeriod e then e.undPrice * e.expRdt - e.dividend
        else e.undPrice * e.expRdt) ∧
    (forwardVariance e).2 = e.undPrice ^ 2 * e.exp2Rdt * (e.expSig2dt - 1) := by
  have hmax : (0 : ℚ) < ((max 1 e.nbSteps : ℕ) : ℚ) := by
    have : (1 : ℕ) ≤ max 1 e.nbSteps := le_max_left 1 e.nbSteps
    exact_mod_cast Nat.lt_of_lt_of_le Nat.zero_lt_one this
  have htol : 0 < divTol e := div_pos (div_pos one_pos hmax) (by norm_num)
  refine ⟨?_, rfl, rfl⟩
  unfold dividendPeriod
  rw [decide_eq_true_eq]
  constructor
  · rintro ⟨⟨hlt, habs⟩, hnext⟩
    rw [abs_sub_comm, abs_of_pos (sub_pos.2 hlt)] at habs
    push_neg at habs
    refine ⟨by linarith, ?_⟩
    rcases hnext with h | h
    · linarith
    · rcases abs_lt.1 h with ⟨h1, h2⟩
      linarith
  · rintro ⟨h1, h2⟩
    have hlt : e.date < e.exDivDate := by linarith
    refine ⟨⟨hlt, ?_⟩, ?_⟩
    · rw [abs_sub_comm, abs_of_pos (sub_pos.2 hlt), not_lt]
      linarith
    · by_cases hn : e.exDivDate < nextDate e
      · exact Or.inl hn
      · push_neg at hn
        right
        rw [abs_of_nonneg (by linarith : (0 : ℚ) ≤ e.exDivDate - nextDate e)]
        linarith

/-! ## The built lattice and the two pricing algorithms (models/tree.py)

`make_tree` builds, column by column, a finite arena of linked node
objects; claims C1 and C8 are about what the two pricing traversals do on
the built node graph. `TreeGraph` is that post-build state: an arena of
nodes addressed by stable indices, the root index, the per-step discount
factor and the option data. The host interpreter's recursion limit is an
explicit fuel argument: exhausting it is the RecursionError. -/

inductive CallPut where
  | call
  | put
  deriving DecidableEq

inductive EurAm where
  | european
  | american
  deriving DecidableEq

/-- Embedding of `Option` (core/option.py): strike, maturity date, type and
exercise style; the two string enumerations are two-valued inductives. -/
structure OptionQ where
  strike : ℚ
  maturity : ℚ
  callPut : CallPut
  eurAm : EurAm

/-- Embedding of `Option.payoff`: `max(S - K, 0)` for calls, `max(K - S, 0)` for puts. -/
def OptionQ.payoff (o : OptionQ) (undPrice : ℚ) : ℚ :=
  if o.callPut = CallPut.call then max (undPrice - o.strike) 0
  else max (o.strike - undPrice) 0

/-- Embedding of `Option.is_american`. -/
def OptionQ.isAmerican (o : OptionQ) : Bool :=
  o.eurAm = EurAm.american

/-- One built node: price level, transition probabilities and the three
forward links (arena indices; `none` is Python's `None`). -/
structure LNode where
  undPrice : ℚ
  pUp : ℚ
  pMid : ℚ
  pDown : ℚ
  nextUp : Option ℕ
  nextMid : Option ℕ
  nextDown : Option ℕ

/-- The node graph after `make_tree`: node arena, root index, per-step
discount factor `df`, option data. -/
structure TreeGraph where
  nodes : ℕ → LNode
  root : ℕ
  df : ℚ
  opt : OptionQ

/-- The option-price cache: the `opt_price` attribute of every node
(`none` until the node has been priced). -/
abbrev Cache := ℕ → Option ℚ

/-- Embedding of `self.next_up.price() if self.next_up is not None else 0.0`:
a missing link contributes price 0. -/
def linkEval (g : ℕ → Except Unit ℚ) : Option ℕ → Except Unit ℚ
  | none => .ok 0
  | some u => g u

/-- Embedding of `Node.price` as the pure recursion (memoization removed;
it is restored in `priceMemo`): terminal nodes return the payoff, interior
nodes the discounted expectation over the three successors, with the
American early-exercise maximum. `.error ()` is the RecursionError. -/
def priceFuel (L : TreeGraph) : ℕ → ℕ → Except Unit ℚ
  | 0, _ => .error ()
  | fuel + 1, i =>
    match (L.nodes i).nextMid with
    | none => .ok (L.opt.payoff (L.nodes i).undPrice)
    | some m =>
      match linkEval (priceFuel L fuel) (L.nodes i).nextUp with
      | .error err => .error err
      | .ok priceUp =>
        match linkEval (priceFuel L fuel) (L.nodes i).nextDown with
        | .error err => .error err
        | .ok priceDown =>
          match priceFuel L fuel m with
          | .error err => .error err
          | .ok priceMid =>
            let price := (priceUp * (L.nodes i).pUp + priceMid * (L.nodes i).pMid +
              priceDown * (L.nodes i).pDown) * L.df
            if L.opt.isAmerican = true ∧ price < L.opt.payoff (L.nodes i).undPrice then
              .ok (L.opt.payoff (L.nodes i).undPrice)
            else .ok price

/-- The memoized analogue of `linkEval`, threading the cache. -/
def linkEvalMemo (g : Cache → ℕ → Except Unit (ℚ × Cache)) (cache : Cache) :
    Option ℕ → Except Unit (ℚ × Cache)
  | none => .ok (0, cache)
  | some u => g cache u

/-- Embedding of `Node.price` with its memoization (`opt_price` checked
first, stored on return), the cache threaded explicitly. -/
def priceMemo (L : TreeGraph) : ℕ → Cache → ℕ → Except Unit (ℚ × Cache)
  | 0, _, _ => .error ()
  | fuel + 1, cache, i =>
    match cache i with
    | some v => .ok (v, cache)
    | none =>
      match (L.nodes i).nextMid with
      | none =>
        let v := L.opt.payoff (L.nodes i).undPrice
        .ok (v, Function.update cache i (some v))
      | some m =>
        match linkEvalMemo (priceMemo L fuel) cache (L.nodes i).nextUp with
        | .error err => .error err
        | .ok (priceUp, c1) =>
          match linkEvalMemo (priceMemo L fuel) c1 (L.nodes i).nextDown with
          | .error err => .error err
          | .ok (priceDown, c2) =>
            match priceMemo L fuel c2 m with
            | .error err => .error err
            | .ok (priceMid, c3) =>
              let price := (priceUp * (L.nodes i).pUp + priceMid * (L.nodes i).pMid +
                priceDown * (L.nodes i).pDown) * L.df
              let v := if L.opt.isAmerican = true ∧ price < L.opt.payoff (L.nodes i).undPrice
                then L.opt.payoff (L.nodes i).undPrice else price
              .ok (v, Function.update c3 i (some v))

/-- Embedding of `Tree.recursive_pricing` after the build: price the root by
pure recursion; the `except RecursionError:` handler prints a message and
falls through, so exhaustion yields Python's implicit `None`. -/
def recursivePricing (L : TreeGraph) (fuel : ℕ) : Option ℚ :=
  match priceFuel L fuel L.root with
  | .ok p => some p
  | .error _ => none

/-- The column walk of `Tree.backward_pricing`: price each visited node in
order (trunk, then up chain, then down chain, column by column from the
terminal column), threading the shared cache. -/
def visitNodes (L : TreeGraph) (fuel : ℕ) : Cache → List ℕ → Except Unit Cache
  | cache, [] => .ok cache
  | cache, i :: rest =>
    match priceMemo L fuel cache i with
    | .error err => .error err
    | .ok (_, c2) => visitNodes L fuel c2 rest

/-- Embedding of `Tree.backward_pricing` after the build: walk the columns
pricing every node, then price the root trunk node and return its cached
value. -/
def backwardPricing (L : TreeGraph) (order : List ℕ) (fuel : ℕ) : Except Unit ℚ :=
  match visitNodes L fuel (fun _ => none) order with
  | .error err => .error err
  | .ok cache =>
    match priceMemo L fuel cache L.root with
    | .error err => .error err
    | .ok (v, _) => .ok v

/-! ### Memoization correctness: the cached walk computes the recursion -/

/-- A cache is coherent when every cached value is the value of the pure
recursion at that node (for some sufficient recursion depth). -/
def Coherent (L : TreeGraph) (cache : Cache) : Prop :=
  ∀ j v, cache j = some v → ∃ f, priceFuel L f j = .ok v

theorem coherent_update (L : TreeGraph) (cache : Cache) (i : ℕ) (v : ℚ)
    (hcoh : Coherent L cache) (hv : ∃ f, priceFuel L f i = .ok v) :
    Coherent L (Function.update cache i (some v)) := by
  intro j w hj
  rcases eq_or_ne j i with rfl | hne
  · rw [Function.update_same] at hj
    obtain rfl : v = w := by injection hj
    exact hv
  · rw [Function.update_noteq hne] at hj
    exact hcoh j w hj

theorem linkEval_mono (L : TreeGraph) (f F : ℕ) (o : Option ℕ) (q : ℚ)
    (hmono : ∀ j r, priceFuel L f j = .ok r → priceFuel L F j = .ok r)
    (h : linkEval (priceFuel L f) o = .ok q) :
    linkEval (priceFuel L F) o = .ok q := by
  cases o with
  | none => exact h
  | some u => exact hmono u q h

/-- Success of the pure recursion is stable under giving it more fuel. -/
theorem priceFuel_mono (L : TreeGraph) :
    ∀ fuel fuel' i p, fuel ≤ fuel' → priceFuel L fuel i = .ok p →
      priceFuel L fuel' i = .ok p := by
  intro fuel
  induction fuel with
  | zero =>
    intro fuel' i p _ h
    simp only [priceFuel] at h
    exact absurd h (by simp)
  | succ f ih =>
    intro fuel' i p hle h
    obtain ⟨f', rfl⟩ : ∃ f', fuel' = f' + 1 := ⟨fuel' - 1, by omega⟩
    have hff : f ≤ f' := by omega
    have hm : ∀ j r, priceFuel L f j = .ok r → priceFuel L f' j = .ok r :=
      fun j r hr => ih f' j r hff hr
    simp only [priceFuel] at h ⊢
    cases hmid : (L.nodes i).nextMid with
    | none =>
      rw [hmid] at h
      dsimp only at h ⊢
      exact h
    | some m =>
      rw [hmid] at h
      dsimp only at h ⊢
      cases hup : linkEval (priceFuel L f) (L.nodes i).nextUp with
      | error e => rw [hup] at h; simp at h
      | ok pu =>
        rw [hup] at h
        dsimp only at h
        rw [linkEval_mono L f f' _ pu hm hup]
        dsimp only
        cases hdn : linkEval (priceFuel L f) (L.nodes i).nextDown with
        | error e => rw [hdn] at h; simp at h
        | ok pd =>
          rw [hdn] at h
          dsimp only at h
          rw [linkEval_mono L f f' _ pd hm hdn]
          dsimp only
          cases hmd : priceFuel L f m with
          | error e => rw [hmd] at h; simp at h
          | ok pm =>
            rw [hmd] at h
            dsimp only at h
            rw [hm m pm hmd]
            dsimp only
            exact h

theorem memoLink_sound (L : TreeGraph) (f : ℕ)
    (ihf : ∀ cache i v c2, Coherent L cache → priceMemo L f cache i = .ok (v, c2) →
      (∃ F, priceFuel L F i = .ok v) ∧ Coherent L c2)
    (o : Option ℕ) (cache : Cache) (q : ℚ) (c2 : Cache)
    (hcoh : Coherent L cache)
    (h : linkEvalMemo (priceMemo L f) cache o = .ok (q, c2)) :
    (∃ F, linkEval (priceFuel L F) o = .ok q) ∧ Coherent L c2 := by
  cases o with
  | none =>
    simp only [linkEvalMemo, Except.ok.injEq, Prod.mk.injEq] at h
    obtain ⟨rfl, rfl⟩ := h
    exact ⟨⟨0, rfl⟩, hcoh⟩
  | some u =>
    exact ihf cache u q c2 hcoh h

/-- A successful memoized pricing call returns the value of the pure
recursion and preserves cache coherence. -/
theorem priceMemo_sound (L : TreeGraph) :
    ∀ fuel cache i v c2, Coherent L cache →
      priceMemo L fuel cache i = .ok (v, c2) →
      (∃ f, priceFuel L f i = .ok v) ∧ Coherent L c2 := by
  intro fuel
  induction fuel with
  | zero =>
    intro cache i v c2 _ h
    simp only [priceMemo] at h
    exact absurd h (by simp)
  | succ f ih =>
    intro cache i v c2 hcoh h
    simp only [priceMemo] at h
    cases hci : cache i with
    | some w =>
      rw [hci] at h
      dsimp only at h
      simp only [Except.ok.injEq, Prod.mk.injEq] at h
      obtain ⟨rfl, rfl⟩ := h
      exact ⟨hcoh i w hci, hcoh⟩
    | none =>
      rw [hci] at h
      dsimp only at h
      cases hmid : (L.nodes i).nextMid with
      | none =>
        rw [hmid] at h
        dsimp only at h
        simp only [Except.ok.injEq, Prod.mk.injEq] at h
        obtain ⟨rfl, rfl⟩ := h
        have hone : priceFuel L 1 i = .ok (L.opt.payoff (L.nodes i).undPrice) := by
          simp only [priceFuel]
          rw [hmid]
        exact ⟨⟨1, hone⟩, coherent_update L cache i _ hcoh ⟨1, hone⟩⟩
      | some m =>
        rw [hmid] at h
        dsimp only at h
        cases hup : linkEvalMemo (priceMemo L f) cache (L.nodes i).nextUp with
        | error e => rw [hup] at h; simp at h
        | ok pr1 =>
          obtain ⟨pu, c1⟩ := pr1
          rw [hup] at h
          dsimp only at h
          obtain ⟨⟨f1, hf1⟩, hc1⟩ := memoLink_sound L f ih _ cache pu c1 hcoh hup
          cases hdn : linkEvalMemo (priceMemo L f) c1 (L.nodes i).nextDown with
          | error e => rw [hdn] at h; simp at h
          | ok pr2 =>
            obtain ⟨pd, c2d⟩ := pr2
            rw [hdn] at h
            dsimp only at h
            obtain ⟨⟨f2, hf2⟩, hc2⟩ := memoLink_sound L f ih _ c1 pd c2d hc1 hdn
            cases hmd : priceMemo L f c2d m with
            | error e => rw [hmd] at h; simp at h
            | ok pr3 =>
              obtain ⟨pm, c3⟩ := pr3
              rw [hmd] at h
              dsimp only at h
              obtain ⟨⟨f3, hf3⟩, hc3⟩ := ih c2d m pm c3 hc2 hmd
              simp only [Except.ok.injEq, Prod.mk.injEq] at h
              obtain ⟨hv, hc⟩ := h
              have hF : priceFuel L (f1 + f2 + f3 + 1) i = .ok v := by
                simp only [priceFuel]
                rw [hmid]
                dsimp only
                rw [linkEval_mono L f1 (f1 + f2 + f3) _ pu
                  (fun j r hr => priceFuel_mono L f1 (f1 + f2 + f3) j r (by omega) hr) hf1]
                dsimp only
                rw [linkEval_mono L f2 (f1 + f2 + f3) _ pd
                  (fun j r hr => priceFuel_mono L f2 (f1 + f2 + f3) j r (by omega) hr) hf2]
                dsimp only
                rw [priceFuel_mono L f3 (f1 + f2 + f3) m pm (by omega) hf3]
                dsimp only
                rw [← hv]
                exact (apply_ite Except.ok _ _ _).symm
              refine ⟨⟨f1 + f2 + f3 + 1, hF⟩, ?_⟩
              rw [hv] at hc
              rw [← hc]
              exact coherent_update L c3 i v hc3 ⟨f1 + f2 + f3 + 1, hF⟩

/-- The backward column walk preserves cache coherence. -/
theorem visitNodes_coherent (L : TreeGraph) (fuel : ℕ) :
    ∀ order cache c2, Coherent L cache → visitNodes L fuel cache order = .ok c2 →
      Coherent L c2 := by
  intro order
  induction order with
  | nil =>
    intro cache c2 hcoh hv
    simp only [visitNodes, Except.ok.injEq] at hv
    rwa [← hv]
  | cons i rest ih =>
    intro cache c2 hcoh hv
    simp only [visitNodes] at hv
    cases hm : priceMemo L fuel cache i with
    | error e => rw [hm] at hv; simp at hv
    | ok pr =>
      obtain ⟨w, cm⟩ := pr
      rw [hm] at hv
      dsimp only at hv
      exact ih cm c2 (priceMemo_sound L fuel cache i w cm hcoh hm).2 hv

/-- C1: on a built lattice, whenever the recursive pricing returns a price
(no resource exhaustion) and the backward induction returns a price, the
two prices are equal — they are the same pure recursion over the same
memoized node graph — hence agree within `1e-9` relative tolerance. -/
theorem recursive_backward_agree (L : TreeGraph) (order : List ℕ)
    (fuelR fuelB : ℕ) (p q : ℚ)
    (hr : recursivePricing L fuelR = some p)
    (hb : backwardPricing L order fuelB = .ok q) :
    |p - q| ≤ 1 / 10 ^ 9 * max |p| |q| := by
  have hrp : priceFuel L fuelR L.root = .ok p := by
    unfold recursivePricing at hr
    cases hx : priceFuel L fuelR L.root with
    | error e => rw [hx] at hr; simp at hr
    | ok w =>
      rw [hx] at hr
      dsimp only at hr
      obtain rfl : w = p := by injection hr
      rfl
  have hpq : p = q := by
    unfold backwardPricing at hb
    cases hv : visitNodes L fuelB (fun _ => none) order with
    | error e => rw [hv] at hb; simp at hb
    | ok cache =>
      rw [hv] at hb
      dsimp only at hb
      have hcoh : Coherent L cache :=
        visitNodes_coherent L fuelB order (fun _ => none) cache
          (fun j v hj => by simp at hj) hv
      cases hpm : priceMemo L fuelB cache L.root with
      | error e => rw [hpm] at hb; simp at hb
      | ok pr =>
        obtain ⟨w, c2⟩ := pr
        rw [hpm] at hb
        dsimp only at hb
        have hwq : w = q := by injection hb
        obtain ⟨f, hf⟩ := (priceMemo_sound L fuelB cache L.root w c2 hcoh hpm).1
        have h1 := priceFuel_mono L fuelR (fuelR + f) L.root p (by omega) hrp
        have h2 := priceFuel_mono L f (fuelR + f) L.root w (by omega) hf
        rw [h1] at h2
        injection h2 with h3
        rw [h3, hwq]
  rw [hpq, sub_self, abs_zero]
  exact mul_nonneg (by norm_num) (le_trans (abs_nonneg q) (le_max_left _ _))

/-- A one-step built lattice: root node 0 with successors 1 (up, price 200),
2 (mid, price 100), 3 (down, price 50), probabilities `(1/4, 1/4, 1/2)`,
discount factor 1, European call struck at 100. The root price is
`(100 * 1/4 + 0 + 0) * 1 = 25`. -/
def latSmall : TreeGraph :=
  { nodes := fun i =>
      if i = 0 then
        { undPrice := 100, pUp := 1 / 4, pMid := 1 / 4, pDown := 1 / 2,
          nextUp := some 1, nextMid := some 2, nextDown := some 3 }
      else if i = 1 then
        { undPrice := 200, pUp := 0, pMid := 0, pDown := 0,
          nextUp := none, nextMid := none, nextDown := none }
      else if i = 2 then
        { undPrice := 100, pUp := 0, pMid := 0, pDown := 0,
          nextUp := none, nextMid := none, nextDown := none }
      else
        { undPrice := 50, pUp := 0, pMid := 0, pDown := 0,
          nextUp := none, nextMid := none, nextDown := none },
    root := 0, df := 1,
    opt := { strike := 100, maturity := 365, callPut := CallPut.call,
             eurAm := EurAm.european } }

/-- Witness for C1 on `latSmall`: both algorithms price the root at 25. -/
theorem recursive_backward_agree_witness :
    recursivePricing latSmall 2 = some 25 ∧
    backwardPricing latSmall [2, 1, 3] 2 = .ok 25 ∧
    |25 - (25 : ℚ)| ≤ 1 / 10 ^ 9 * max |(25 : ℚ)| |(25 : ℚ)| := by
  have h1 : recursivePricing latSmall 2 = some 25 := by
    norm_num [recursivePricing, priceFuel, linkEval, latSmall,
      OptionQ.payoff, OptionQ.isAmerican]
  have h2 : backwardPricing latSmall [2, 1, 3] 2 = .ok 25 := by
    norm_num [backwardPricing, visitNodes, priceMemo, linkEvalMemo,
      Function.update_apply, latSmall, OptionQ.payoff, OptionQ.isAmerican]
  exact ⟨h1, h2, recursive_backward_agree latSmall [2, 1, 3] 2 2 25 25 h1 h2⟩

/-- C8 (the code's behavior at a resource-exhausting input): when the pure
recursion exhausts the stack budget, `recursive_pricing` catches the
RecursionError itself, prints a message and falls through — it returns
Python's implicit `None` (`none`), so the caller receives neither a price
nor a catchable exhaustion signal. -/
theorem recursive_exhaustion_swallowed :
    priceFuel latSmall 0 latSmall.root = .error () ∧
    recursivePricing latSmall 0 = none := by
  constructor
  · simp only [priceFuel]
  · simp [recursivePricing, priceFuel]

/-! ## Engine construction and the pruning-floor guard (models/tree.py) -/

/-- Embedding of `PricerParameters`: valuation date (days), step count,
pruning toggle, pruning floor (`none` is Python's `None`). -/
structure PricerParametersQ where
  pricingDate : ℚ
  nbSteps : ℕ
  pruning : Bool
  pMin : Option ℚ

/-- The far-future sentinel `datetime(2099, 12, 31)` as a proleptic-ordinal
day count. -/
def sentinelDate : ℚ := 766644

/-- Embedding of `Market`: normalized market inputs. -/
structure MarketQ where
  s0 : ℚ
  rate : ℚ
  vol : ℚ
  dividend : ℚ
  exDivDate : ℚ

/-- Embedding of `Market.__init__`: negative spot or volatility is a fatal
ValueError; when the dividend is zero or no ex-date is supplied, the
ex-dividend date is normalized to the far-future sentinel. -/
def mkMarket (s0 rate vol dividendAmount : ℚ) (exDivDate : Option ℚ) :
    Except String MarketQ :=
  if s0 < 0 ∨ vol < 0 then .error "Spot and volatility must be non-negative"
  else
    let ex := match exDivDate with
      | some d => if dividendAmount ≠ 0 then d else sentinelDate
      | none => sentinelDate
    Except.ok
      { s0 := s0
        rate := rate
        vol := vol
        dividend := dividendAmount
        exDivDate := ex }

/-- Embedding of the `Tree` object right after `Tree.__init__`: inputs and
derived constants; `root` and `last` are `None` until `make_tree` runs.
`df` and `alpha` carry the values of the two `np.exp` expressions the
constructor computes. -/
structure TreeQ where
  pricerParameters : PricerParametersQ
  marketData : MarketQ
  optionData : OptionQ
  deltaT : ℚ
  df : ℚ
  alpha : ℚ
  root : Option ℕ
  last : Option ℕ

/-- Embedding of `Tree.__init__`. It performs no validation: it stores the
inputs, computes
`delta_t = (maturity - pricing_date).days / (nb_steps * 365)` and the two
exponential constants (supplied as `dfVal`, `alphaVal`), and leaves
`root = last = None`. -/
def treeInit (pp : PricerParametersQ) (md : MarketQ) (od : OptionQ)
    (dfVal alphaVal : ℚ) : TreeQ :=
  { pricerParameters := pp, marketData := md, optionData := od,
    deltaT := ((Int.floor (od.maturity - pp.pricingDate) : ℤ) : ℚ) /
      ((pp.nbSteps : ℚ) * 365),
    df := dfVal, alpha := alphaVal, root := none, last := none }

/-- The configuration guard at the head of `Tree.make_tree`: requesting
pruning without a probability floor raises
`ValueError("Provide p_min for pruning")` before any node is created;
otherwise lattice construction proceeds. -/
def makeTreeCheck (t : TreeQ) : Except String Unit :=
  if t.pricerParameters.pruning = true ∧ t.pricerParameters.pMin = none then
    .error "Provide p_min for pruning"
  else .ok ()

/-- A configuration requesting pruning with no floor supplied. -/
def ppNoFloor : PricerParametersQ :=
  { pricingDate := 0, nbSteps := 10, pruning := true, pMin := none }

/-- A plain dividend-free market for the C7 evaluation point. -/
def mdPlain : MarketQ :=
  { s0 := 100, rate := 1 / 20, vol := 1 / 5, dividend := 0,
    exDivDate := sentinelDate }

/-- A one-year European call struck at 100 for the C7 evaluation point. -/
def odPlain : OptionQ :=
  { strike := 100, maturity := 365, callPut := CallPut.call,
    eurAm := EurAm.european }

/-- C7 counterexample: with pruning requested and no floor supplied,
`Tree(config, market, option)` completes normally — the returned object has
its derived constant `delta_t = 1/10` computed and no lattice — instead of
failing fast; the fatal configuration error is raised only by `make_tree`. -/
theorem engine_construction_counterexample :
    ppNoFloor.pruning = true ∧ ppNoFloor.pMin = none ∧
    (treeInit ppNoFloor mdPlain odPlain 1 1).deltaT = 1 / 10 ∧
    (treeInit ppNoFloor mdPlain odPlain 1 1).root = none ∧
    makeTreeCheck (treeInit ppNoFloor mdPlain odPlain 1 1) =
      .error "Provide p_min for pruning" := by
  refine ⟨rfl, rfl, ?_, rfl, ?_⟩
  · show ((Int.floor ((365 : ℚ) - 0) : ℤ) : ℚ) / ((10 : ℚ) * 365) = 1 / 10
    rw [show ((365 : ℚ) - 0) = ((365 : ℤ) : ℚ) by norm_num, Int.floor_intCast]
    norm_num
  · show (if ppNoFloor.pruning = true ∧ ppNoFloor.pMin = none then
        Except.error "Provide p_min for pruning" else Except.ok ()) =
      Except.error "Provide p_min for pruning"
    rw [if_pos ⟨rfl, rfl⟩]

/-- C7 amended: `Tree.__init__` always succeeds and builds nothing; the
fatal configuration error for pruning-without-floor is raised by
`make_tree` — the first step of both pricing routines — before any lattice
node exists, so no price is produced. -/
theorem engine_construction_amended (pp : PricerParametersQ) (md : MarketQ)
    (od : OptionQ) (dfVal alphaVal : ℚ)
    (h1 : pp.pruning = true) (h2 : pp.pMin = none) :
    (treeInit pp md od dfVal alphaVal).root = none ∧
    (treeInit pp md od dfVal alphaVal).last = none ∧
    makeTreeCheck (treeInit pp md od dfVal alphaVal) =
      .error "Provide p_min for pruning" := by
  refine ⟨rfl, rfl, ?_⟩
  show (if pp.pruning = true ∧ pp.pMin = none then
      Except.error "Provide p_min for pruning" else Except.ok ()) =
    Except.error "Provide p_min for pruning"
  rw [if_pos ⟨h1, h2⟩]

/-- Witness for the amended C7 at the concrete no-floor configuration. -/
theorem engine_construction_amended_witness :
    ppNoFloor.pruning = true ∧ ppNoFloor.pMin = none ∧
    ((treeInit ppNoFloor mdPlain odPlain 1 1).root = none ∧
      (treeInit ppNoFloor mdPlain odPlain 1 1).last = none ∧
      makeTreeCheck (treeInit ppNoFloor mdPlain odPlain 1 1) =
        .error "Provide p_min for pruning") :=
  ⟨rfl, rfl, engine_construction_amended ppNoFloor mdPlain odPlain 1 1 rfl rfl⟩

/-! ## Finite-difference Greeks (greeks/numerical_greeks.py)

The estimators repeatedly build a `Tree` from perturbed inputs and price it
with backward induction. At this layer the tree pricer —
`Tree(params, market, option).backward_pricing()` — is abstracted as a
function `bp : TreePricer`; the claims here are about how each estimator
wires perturbed `Market` instances, valuation dates and pricer parameters
into it and combines the resulting prices. -/

/-- The pricing interface the Greek estimators consume:
`Tree(params, market, option).backward_pricing()`. -/
abbrev TreePricer := PricerParametersQ → MarketQ → OptionQ → ℚ

/-- Embedding of `_price`: builds
`PricerParameters(pricing_date, n_steps, pruning=True, p_min=1e-7)` and
prices with the backward algorithm (the default method argument). -/
def priceFD (bp : TreePricer) (market : MarketQ) (opt : OptionQ)
    (pricingDate : ℚ) (nSteps : ℕ) : ℚ :=
  bp { pricingDate := pricingDate
       nbSteps := nSteps
       pruning := true
       pMin := some (1 / 10 ^ 7) } market opt

/-- Embedding of `delta`: central difference in spot, relative bump `h`. -/
def delta (bp : TreePricer) (mkt : MarketQ) (nSteps : ℕ) (pricingDate : ℚ)
    (opt : OptionQ) (h : ℚ) : Except String ℚ := do
  let up ← mkMarket (mkt.s0 * (1 + h)) mkt.rate mkt.vol mkt.dividend
    (some mkt.exDivDate)
  let down ← mkMarket (mkt.s0 * (1 - h)) mkt.rate mkt.vol mkt.dividend
    (some mkt.exDivDate)
  pure ((priceFD bp up opt pricingDate nSteps -
    priceFD bp down opt pricingDate nSteps) / (mkt.s0 * 2 * h))

/-- Embedding of `gamma`: central second difference in spot. -/
def gamma (bp : TreePricer) (mkt : MarketQ) (nSteps : ℕ) (pricingDate : ℚ)
    (opt : OptionQ) (h : ℚ) : Except String ℚ := do
  let up ← mkMarket (mkt.s0 * (1 + h)) mkt.rate mkt.vol mkt.dividend
    (some mkt.exDivDate)
  let down ← mkMarket (mkt.s0 * (1 - h)) mkt.rate mkt.vol mkt.dividend
    (some mkt.exDivDate)
  pure ((priceFD bp up opt pricingDate nSteps -
    2 * priceFD bp mkt opt pricingDate nSteps +
    priceFD bp down opt pricingDate nSteps) / (mkt.s0 * h) ^ 2)

/-- Embedding of `vega`: central difference in volatility. -/
def vega (bp : TreePricer) (mkt : MarketQ) (nSteps : ℕ) (pricingDate : ℚ)
    (opt : OptionQ) (h : ℚ) : Except String ℚ := do
  let up ← mkMarket mkt.s0 mkt.rate (mkt.vol * (1 + h)) mkt.dividend
    (some mkt.exDivDate)
  let down ← mkMarket mkt.s0 mkt.rate (mkt.vol * (1 - h)) mkt.dividend
    (some mkt.exDivDate)
  pure ((priceFD bp up opt pricingDate nSteps -
    priceFD bp down opt pricingDate nSteps) / (2 * mkt.vol * h))

/-- Embedding of `theta`: a one-sided difference in the valuation date,
`(price(t + days) - price(t)) / days`. -/
def theta (bp : TreePricer) (mkt : MarketQ) (nSteps : ℕ) (pricingDate : ℚ)
    (opt : OptionQ) (days : ℚ) : ℚ :=
  (priceFD bp mkt opt (pricingDate + days) nSteps -
    priceFD bp mkt opt pricingDate nSteps) / days

/-- Embedding of `rho`: central difference in the risk-free rate. -/
def rho (bp : TreePricer) (mkt : MarketQ) (nSteps : ℕ) (pricingDate : ℚ)
    (opt : OptionQ) (h : ℚ) : Except String ℚ := do
  let up ← mkMarket mkt.s0 (mkt.rate + h) mkt.vol mkt.dividend
    (some mkt.exDivDate)
  let down ← mkMarket mkt.s0 (mkt.rate - h) mkt.vol mkt.dividend
    (some mkt.exDivDate)
  pure ((priceFD bp up opt pricingDate nSteps -
    priceFD bp down opt pricingDate nSteps) / (2 * h))

/-- Embedding of `vanna`: 4-point cross stencil in spot and volatility. -/
def vanna (bp : TreePricer) (mkt : MarketQ) (nSteps : ℕ) (pricingDate : ℚ)
    (opt : OptionQ) (hs hsig : ℚ) : Except String ℚ := do
  let mpp ← mkMarket (mkt.s0 * (1 + hs)) mkt.rate (mkt.vol * (1 + hsig))
    mkt.dividend (some mkt.exDivDate)
  let mpm ← mkMarket (mkt.s0 * (1 + hs)) mkt.rate (mkt.vol * (1 - hsig))
    mkt.dividend (some mkt.exDivDate)
  let mmp ← mkMarket (mkt.s0 * (1 - hs)) mkt.rate (mkt.vol * (1 + hsig))
    mkt.dividend (some mkt.exDivDate)
  let mmm ← mkMarket (mkt.s0 * (1 - hs)) mkt.rate (mkt.vol * (1 - hsig))
    mkt.dividend (some mkt.exDivDate)
  pure ((priceFD bp mpp opt pricingDate nSteps -
    priceFD bp mpm opt pricingDate nSteps -
    priceFD bp mmp opt pricingDate nSteps +
    priceFD bp mmm opt pricingDate nSteps) /
    (4 * mkt.s0 * hs * mkt.vol * hsig))

/-- Embedding of `vomma`: central second difference in volatility. -/
def vomma (bp : TreePricer) (mkt : MarketQ) (nSteps : ℕ) (pricingDate : ℚ)
    (opt : OptionQ) (h : ℚ) : Except String ℚ := do
  let up ← mkMarket mkt.s0 mkt.rate (mkt.vol * (1 + h)) mkt.dividend
    (some mkt.exDivDate)
  let down ← mkMarket mkt.s0 mkt.rate (mkt.vol * (1 - h)) mkt.dividend
    (some mkt.exDivDate)
  pure ((priceFD bp up opt pricingDate nSteps -
    2 * priceFD bp mkt opt pricingDate nSteps +
    priceFD bp down opt pricingDate nSteps) / (mkt.vol * h) ^ 2)

/-- Embedding of `lambda_elasticity`: `(delta * S0) / V`, `0` when the base
price `V` is zero. -/
def lambdaElasticity (bp : TreePricer) (mkt : MarketQ) (nSteps : ℕ)
    (pricingDate : ℚ) (opt : OptionQ) (h : ℚ) : Except String ℚ := do
  let v := priceFD bp mkt opt pricingDate nSteps
  let d ← delta bp mkt nSteps pricingDate opt h
  pure (if v ≠ 0 then d * mkt.s0 / v else 0)

/-- A dynamically-typed positional argument of the `*args` estimators. -/
inductive PyVal where
  | vMkt (m : MarketQ)
  | vSteps (k : ℕ)
  | vDate (d : ℚ)
  | vOpt (o : OptionQ)

/-- Embedding of `charm`: the `try/except` argument prologue returns `0.0`
when any of the four positional arguments is missing; with them, a forward
difference in time of two `delta` estimates. A wrong runtime type surfaces
later as a TypeError. -/
def charm (bp : TreePricer) (args : List PyVal) (kwDays kwH : Option ℚ) :
    Except String ℚ :=
  match args.get? 0, args.get? 1, args.get? 2, args.get? 3 with
  | some a0, some a1, some a2, some a3 =>
    (match a0, a1, a2, a3 with
     | .vMkt mkt, .vSteps nSteps, .vDate pricingDate, .vOpt opt => do
       let days := kwDays.getD 1
       let h := kwH.getD (1 / 100)
       let deltaNow ← delta bp mkt nSteps pricingDate opt h
       let deltaLater ← delta bp mkt nSteps (pricingDate + days) opt h
       pure ((deltaLater - deltaNow) / days)
     | _, _, _, _ => .error "TypeError")
  | _, _, _, _ => .ok 0

/-- Embedding of `speed`: same argument prologue; a central difference of
two `gamma` estimates in spot with absolute bump
`eps = max(1e-3, S0 * h)`. -/
def speed (bp : TreePricer) (args : List PyVal) (kwH : Option ℚ) :
    Except String ℚ :=
  match args.get? 0, args.get? 1, args.get? 2, args.get? 3 with
  | some a0, some a1, some a2, some a3 =>
    (match a0, a1, a2, a3 with
     | .vMkt mkt, .vSteps nSteps, .vDate pricingDate, .vOpt opt => do
       let h := kwH.getD (1 / 100)
       let eps := max (1 / 1000) (mkt.s0 * h)
       let up ← mkMarket (mkt.s0 + eps) mkt.rate mkt.vol mkt.dividend
         (some mkt.exDivDate)
       let down ← mkMarket (mkt.s0 - eps) mkt.rate mkt.vol mkt.dividend
         (some mkt.exDivDate)
       let gUp ← gamma bp up nSteps pricingDate opt h
       let gDown ← gamma bp down nSteps pricingDate opt h
       pure ((gUp - gDown) / (2 * eps))
     | _, _, _, _ => .error "TypeError")
  | _, _, _, _ => .ok 0

/-- Embedding of `zomma`: same argument prologue; a central difference of
two `gamma` estimates in volatility with absolute bump
`eps = max(1e-4, sigma * h)`. -/
def zomma (bp : TreePricer) (args : List PyVal) (kwH : Option ℚ) :
    Except String ℚ :=
  match args.get? 0, args.get? 1, args.get? 2, args.get? 3 with
  | some a0, some a1, some a2, some a3 =>
    (match a0, a1, a2, a3 with
     | .vMkt mkt, .vSteps nSteps, .vDate pricingDate, .vOpt opt => do
       let h := kwH.getD (1 / 100)
       let eps := max (1 / 10000) (mkt.vol * h)
       let up ← mkMarket mkt.s0 mkt.rate (mkt.vol + eps) mkt.dividend
         (some mkt.exDivDate)
       let down ← mkMarket mkt.s0 mkt.rate (mkt.vol - eps) mkt.dividend
         (some mkt.exDivDate)
       let gUp ← gamma bp up nSteps pricingDate opt h
       let gDown ← gamma bp down nSteps pricingDate opt h
       pure ((gUp - gDown) / (2 * eps))
     | _, _, _, _ => .error "TypeError")
  | _, _, _, _ => .ok 0

/-- Embedding of `dividend_rho`: same argument prologue; prices at dividend
`d + h` and at `max(d - h, 0)` (the down bump clamped at zero) and divides
by `2 h` regardless. -/
def dividendRho (bp : TreePricer) (args : List PyVal) (kwH : Option ℚ) :
    Except String ℚ :=
  match args.get? 0, args.get? 1, args.get? 2, args.get? 3 with
  | some a0, some a1, some a2, some a3 =>
    (match a0, a1, a2, a3 with
     | .vMkt mkt, .vSteps nSteps, .vDate pricingDate, .vOpt opt => do
       let h := kwH.getD (1 / 100)
       let baseDiv := mkt.dividend
       let up ← mkMarket mkt.s0 mkt.rate mkt.vol (baseDiv + h)
         (some mkt.exDivDate)
       let down ← mkMarket mkt.s0 mkt.rate mkt.vol (max (baseDiv - h) 0)
         (some mkt.exDivDate)
       pure ((priceFD bp up opt pricingDate nSteps -
         priceFD bp down opt pricingDate nSteps) / (2 * h))
     | _, _, _, _ => .error "TypeError")
  | _, _, _, _ => .ok 0

/-! ### Reduction helpers for the Except monad -/

theorem bindOk {ε α β : Type} (a : α) (f : α → Except ε β) :
    (Except.ok a : Except ε α) >>= f = f a := rfl

theorem pureOk {ε α : Type} (a : α) :
    (pure a : Except ε α) = Except.ok a := rfl

/-- The `Market` record a Greek obtains for a perturbed input when the
validation passes: the given fields with the ex-date normalization of
`Market.__init__`. -/
def bumpedMarket (s0 rate vol dividend exDate : ℚ) : MarketQ :=
  { s0 := s0
    rate := rate
    vol := vol
    dividend := dividend
    exDivDate := if dividend ≠ 0 then exDate else sentinelDate }

theorem mkMarket_ok (s0 rate vol dividend exDate : ℚ)
    (h1 : 0 ≤ s0) (h2 : 0 ≤ vol) :
    mkMarket s0 rate vol dividend (some exDate) =
      .ok (bumpedMarket s0 rate vol dividend exDate) := by
  have hcond : ¬ (s0 < 0 ∨ vol < 0) := by
    rw [not_or, not_lt, not_lt]
    exact ⟨h1, h2⟩
  unfold mkMarket
  rw [if_neg hcond]
  rfl

/-! ### The stencil formulas as the claim states them -/

/-- Central first-difference stencil in spot for Delta. -/
def specDeltaStencil (bp : TreePricer) (mkt : MarketQ) (nSteps : ℕ)
    (pricingDate : ℚ) (opt : OptionQ) (h : ℚ) : ℚ :=
  (priceFD bp (bumpedMarket (mkt.s0 * (1 + h)) mkt.rate mkt.vol mkt.dividend
      mkt.exDivDate) opt pricingDate nSteps -
    priceFD bp (bumpedMarket (mkt.s0 * (1 - h)) mkt.rate mkt.vol mkt.dividend
      mkt.exDivDate) opt pricingDate nSteps) / (mkt.s0 * 2 * h)

/-- Central second-difference stencil in spot for Gamma. -/
def specGammaStencil (bp : TreePricer) (mkt : MarketQ) (nSteps : ℕ)
    (pricingDate : ℚ) (opt : OptionQ) (h : ℚ) : ℚ :=
  (priceFD bp (bumpedMarket (mkt.s0 * (1 + h)) mkt.rate mkt.vol mkt.dividend
      mkt.exDivDate) opt pricingDate nSteps -
    2 * priceFD bp mkt opt pricingDate nSteps +
    priceFD bp (bumpedMarket (mkt.s0 * (1 - h)) mkt.rate mkt.vol mkt.dividend
      mkt.exDivDate) opt pricingDate nSteps) / (mkt.s0 * h) ^ 2

/-- Central first-difference stencil in volatility for Vega. -/
def specVegaStencil (bp : TreePricer) (mkt : MarketQ) (nSteps : ℕ)
    (pricingDate : ℚ) (opt : OptionQ) (h : ℚ) : ℚ :=
  (priceFD bp (bumpedMarket mkt.s0 mkt.rate (mkt.vol * (1 + h)) mkt.dividend
      mkt.exDivDate) opt pricingDate nSteps -
    priceFD bp (bumpedMarket mkt.s0 mkt.rate (mkt.vol * (1 - h)) mkt.dividend
      mkt.exDivDate) opt pricingDate nSteps) / (2 * mkt.vol * h)

/-- One-sided forward difference in time: the formula `theta` computes. -/
def specThetaForward (bp : TreePricer) (mkt : MarketQ) (nSteps : ℕ)
    (pricingDate : ℚ) (opt : OptionQ) (days : ℚ) : ℚ :=
  (priceFD bp mkt opt (pricingDate + days) nSteps -
    priceFD bp mkt opt pricingDate nSteps) / days

/-- The symmetric central stencil in time the claim asserts for Theta. -/
def specThetaCentral (bp : TreePricer) (mkt : MarketQ) (nSteps : ℕ)
    (pricingDate : ℚ) (opt : OptionQ) (days : ℚ) : ℚ :=
  (priceFD bp mkt opt (pricingDate + days) nSteps -
    priceFD bp mkt opt (pricingDate - days) nSteps) / (2 * days)

/-- Central first-difference stencil in the rate for Rho. -/
def specRhoStencil (bp : TreePricer) (mkt : MarketQ) (nSteps : ℕ)
    (pricingDate : ℚ) (opt : OptionQ) (h : ℚ) : ℚ :=
  (priceFD bp (bumpedMarket mkt.s0 (mkt.rate + h) mkt.vol mkt.dividend
      mkt.exDivDate) opt pricingDate nSteps -
    priceFD bp (bumpedMarket mkt.s0 (mkt.rate - h) mkt.vol mkt.dividend
      mkt.exDivDate) opt pricingDate nSteps) / (2 * h)

/-- Cross 4-point stencil in spot and volatility for Vanna. -/
def specVannaStencil (bp : TreePricer) (mkt : MarketQ) (nSteps : ℕ)
    (pricingDate : ℚ) (opt : OptionQ) (hs hsig : ℚ) : ℚ :=
  (priceFD bp (bumpedMarket (mkt.s0 * (1 + hs)) mkt.rate (mkt.vol * (1 + hsig))
      mkt.dividend mkt.exDivDate) opt pricingDate nSteps -
    priceFD bp (bumpedMarket (mkt.s0 * (1 + hs)) mkt.rate (mkt.vol * (1 - hsig))
      mkt.dividend mkt.exDivDate) opt pricingDate nSteps -
    priceFD bp (bumpedMarket (mkt.s0 * (1 - hs)) mkt.rate (mkt.vol * (1 + hsig))
      mkt.dividend mkt.exDivDate) opt pricingDate nSteps +
    priceFD bp (bumpedMarket (mkt.s0 * (1 - hs)) mkt.rate (mkt.vol * (1 - hsig))
      mkt.dividend mkt.exDivDate) opt pricingDate nSteps) /
    (4 * mkt.s0 * hs * mkt.vol * hsig)

/-- Central second-difference stencil in volatility for Vomma. -/
def specVommaStencil (bp : TreePricer) (mkt : MarketQ) (nSteps : ℕ)
    (pricingDate : ℚ) (opt : OptionQ) (h : ℚ) : ℚ :=
  (priceFD bp (bumpedMarket mkt.s0 mkt.rate (mkt.vol * (1 + h)) mkt.dividend
      mkt.exDivDate) opt pricingDate nSteps -
    2 * priceFD bp mkt opt pricingDate nSteps +
    priceFD bp (bumpedMarket mkt.s0 mkt.rate (mkt.vol * (1 - h)) mkt.dividend
      mkt.exDivDate) opt pricingDate nSteps) / (mkt.vol * h) ^ 2

/-- Forward difference in time of two Delta estimates: the formula `charm`
computes. -/
def specCharmForward (bp : TreePricer) (mkt : MarketQ) (nSteps : ℕ)
    (pricingDate : ℚ) (opt : OptionQ) (days h : ℚ) : ℚ :=
  (specDeltaStencil bp mkt nSteps (pricingDate + days) opt h -
    specDeltaStencil bp mkt nSteps pricingDate opt h) / days

/-- Central difference in spot of two Gamma estimates: the formula `speed`
computes, with absolute bump `max(1e-3, S0 h)`. -/
def specSpeedStencil (bp : TreePricer) (mkt : MarketQ) (nSteps : ℕ)
    (pricingDate : ℚ) (opt : OptionQ) (h : ℚ) : ℚ :=
  (specGammaStencil bp (bumpedMarket (mkt.s0 + max (1 / 1000) (mkt.s0 * h))
      mkt.rate mkt.vol mkt.dividend mkt.exDivDate) nSteps pricingDate opt h -
    specGammaStencil bp (bumpedMarket (mkt.s0 - max (1 / 1000) (mkt.s0 * h))
      mkt.rate mkt.vol mkt.dividend mkt.exDivDate) nSteps pricingDate opt h) /
    (2 * max (1 / 1000) (mkt.s0 * h))

/-- Central difference in volatility of two Gamma estimates: the formula
`zomma` computes, with absolute bump `max(1e-4, sigma h)`. -/
def specZommaStencil (bp : TreePricer) (mkt : MarketQ) (nSteps : ℕ)
    (pricingDate : ℚ) (opt : OptionQ) (h : ℚ) : ℚ :=
  (specGammaStencil bp (bumpedMarket mkt.s0 mkt.rate
      (mkt.vol + max (1 / 10000) (mkt.vol * h)) mkt.dividend mkt.exDivDate)
      nSteps pricingDate opt h -
    specGammaStencil bp (bumpedMarket mkt.s0 mkt.rate
      (mkt.vol - max (1 / 10000) (mkt.vol * h)) mkt.dividend mkt.exDivDate)
      nSteps pricingDate opt h) / (2 * max (1 / 10000) (mkt.vol * h))

/-- The formula `dividend_rho` computes: dividend bumped up by `h`, down to
`max(d - h, 0)`, divided by `2 h` regardless of the clamp. -/
def specDividendRhoClamped (bp : TreePricer) (mkt : MarketQ) (nSteps : ℕ)
    (pricingDate : ℚ) (opt : OptionQ) (h : ℚ) : ℚ :=
  (priceFD bp (bumpedMarket mkt.s0 mkt.rate mkt.vol (mkt.dividend + h)
      mkt.exDivDate) opt pricingDate nSteps -
    priceFD bp (bumpedMarket mkt.s0 mkt.rate mkt.vol (max (mkt.dividend - h) 0)
      mkt.exDivDate) opt pricingDate nSteps) / (2 * h)

/-- The formula `lambda_elasticity` computes: Delta times spot over the
base price, `0` when the base price is zero. -/
def specLambdaFormula (bp : TreePricer) (mkt : MarketQ) (nSteps : ℕ)
    (pricingDate : ℚ) (opt : OptionQ) (h : ℚ) : ℚ :=
  if priceFD bp mkt opt pricingDate nSteps ≠ 0 then
    specDeltaStencil bp mkt nSteps pricingDate opt h * mkt.s0 /
      priceFD bp mkt opt pricingDate nSteps
  else 0

/-! ### Each estimator computes its formula -/

theorem delta_formula (bp : TreePricer) (mkt : MarketQ) (nSteps : ℕ)
    (pricingDate : ℚ) (opt : OptionQ) (h : ℚ)
    (hu : 0 ≤ mkt.s0 * (1 + h)) (hd : 0 ≤ mkt.s0 * (1 - h))
    (hv : 0 ≤ mkt.vol) :
    delta bp mkt nSteps pricingDate opt h =
      .ok (specDeltaStencil bp mkt nSteps pricingDate opt h) := by
  unfold delta
  rw [mkMarket_ok _ _ _ _ _ hu hv, mkMarket_ok _ _ _ _ _ hd hv]
  simp only [bindOk, pureOk]
  rfl

theorem gamma_formula (bp : TreePricer) (mkt : MarketQ) (nSteps : ℕ)
    (pricingDate : ℚ) (opt : OptionQ) (h : ℚ)
    (hu : 0 ≤ mkt.s0 * (1 + h)) (hd : 0 ≤ mkt.s0 * (1 - h))
    (hv : 0 ≤ mkt.vol) :
    gamma bp mkt nSteps pricingDate opt h =
      .ok (specGammaStencil bp mkt nSteps pricingDate opt h) := by
  unfold gamma
  rw [mkMarket_ok _ _ _ _ _ hu hv, mkMarket_ok _ _ _ _ _ hd hv]
  simp only [bindOk, pureOk]
  rfl

theorem vega_formula (bp : TreePricer) (mkt : MarketQ) (nSteps : ℕ)
    (pricingDate : ℚ) (opt : OptionQ) (h : ℚ)
    (hs : 0 ≤ mkt.s0) (hvu : 0 ≤ mkt.vol * (1 + h))
    (hvd : 0 ≤ mkt.vol * (1 - h)) :
    vega bp mkt nSteps pricingDate opt h =
      .ok (specVegaStencil bp mkt nSteps pricingDate opt h) := by
  unfold vega
  rw [mkMarket_ok _ _ _ _ _ hs hvu, mkMarket_ok _ _ _ _ _ hs hvd]
  simp only [bindOk, pureOk]
  rfl

theorem theta_formula (bp : TreePricer) (mkt : MarketQ) (nSteps : ℕ)
    (pricingDate : ℚ) (opt : OptionQ) (days : ℚ) :
    theta bp mkt nSteps pricingDate opt days =
      specThetaForward bp mkt nSteps pricingDate opt days := rfl

theorem rho_formula (bp : TreePricer) (mkt : MarketQ) (nSteps : ℕ)
    (pricingDate : ℚ) (opt : OptionQ) (h : ℚ)
    (hs : 0 ≤ mkt.s0) (hv : 0 ≤ mkt.vol) :
    rho bp mkt nSteps pricingDate opt h =
      .ok (specRhoStencil bp mkt nSteps pricingDate opt h) := by
  unfold rho
  rw [mkMarket_ok _ _ _ _ _ hs hv, mkMarket_ok _ _ _ _ _ hs hv]
  simp only [bindOk, pureOk]
  rfl

theorem vanna_formula (bp : TreePricer) (mkt : MarketQ) (nSteps : ℕ)
    (pricingDate : ℚ) (opt : OptionQ) (hs hsig : ℚ)
    (hsu : 0 ≤ mkt.s0 * (1 + hs)) (hsd : 0 ≤ mkt.s0 * (1 - hs))
    (hgu : 0 ≤ mkt.vol * (1 + hsig)) (hgd : 0 ≤ mkt.vol * (1 - hsig)) :
    vanna bp mkt nSteps pricingDate opt hs hsig =
      .ok (specVannaStencil bp mkt nSteps pricingDate opt hs hsig) := by
  unfold vanna
  rw [mkMarket_ok _ _ _ _ _ hsu hgu, mkMarket_ok _ _ _ _ _ hsu hgd,
    mkMarket_ok _ _ _ _ _ hsd hgu, mkMarket_ok _ _ _ _ _ hsd hgd]
  simp only [bindOk, pureOk]
  rfl

theorem vomma_formula (bp : TreePricer) (mkt : MarketQ) (nSteps : ℕ)
    (pricingDate : ℚ) (opt : OptionQ) (h : ℚ)
    (hs : 0 ≤ mkt.s0) (hvu : 0 ≤ mkt.vol * (1 + h))
    (hvd : 0 ≤ mkt.vol * (1 - h)) :
    vomma bp mkt nSteps pricingDate opt h =
      .ok (specVommaStencil bp mkt nSteps pricingDate opt h) := by
  unfold vomma
  rw [mkMarket_ok _ _ _ _ _ hs hvu, mkMarket_ok _ _ _ _ _ hs hvd]
  simp only [bindOk, pureOk]
  rfl

theorem lambda_formula (bp : TreePricer) (mkt : MarketQ) (nSteps : ℕ)
    (pricingDate : ℚ) (opt : OptionQ) (h : ℚ)
    (hu : 0 ≤ mkt.s0 * (1 + h)) (hd : 0 ≤ mkt.s0 * (1 - h))
    (hv : 0 ≤ mkt.vol) :
    lambdaElasticity bp mkt nSteps pricingDate opt h =
      .ok (specLambdaFormula bp mkt nSteps pricingDate opt h) := by
  unfold lambdaElasticity
  rw [delta_formula bp mkt nSteps pricingDate opt h hu hd hv]
  simp only [bindOk, pureOk]
  rfl

theorem charm_formula (bp : TreePricer) (mkt : MarketQ) (nSteps : ℕ)
    (pricingDate : ℚ) (opt : OptionQ) (days h : ℚ)
    (hu : 0 ≤ mkt.s0 * (1 + h)) (hd : 0 ≤ mkt.s0 * (1 - h))
    (hv : 0 ≤ mkt.vol) :
    charm bp [PyVal.vMkt mkt, PyVal.vSteps nSteps, PyVal.vDate pricingDate,
      PyVal.vOpt opt] (some days) (some h) =
      .ok (specCharmForward bp mkt nSteps pricingDate opt days h) := by
  unfold charm
  dsimp only [List.get?, Option.getD]
  rw [delta_formula bp mkt nSteps pricingDate opt h hu hd hv]
  simp only [bindOk]
  rw [delta_formula bp mkt nSteps (pricingDate + days) opt h hu hd hv]
  simp only [bindOk, pureOk]
  rfl

theorem speed_formula (bp : TreePricer) (mkt : MarketQ) (nSteps : ℕ)
    (pricingDate : ℚ) (opt : OptionQ) (h : ℚ)
    (hs0 : 0 ≤ mkt.s0) (hvol : 0 ≤ mkt.vol) (hh0 : 0 ≤ h) (hh1 : h ≤ 1)
    (hsp : max (1 / 1000) (mkt.s0 * h) ≤ mkt.s0) :
    speed bp [PyVal.vMkt mkt, PyVal.vSteps nSteps, PyVal.vDate pricingDate,
      PyVal.vOpt opt] (some h) =
      .ok (specSpeedStencil bp mkt nSteps pricingDate opt h) := by
  have heps : 0 ≤ max (1 / 1000) (mkt.s0 * h) :=
    le_trans (by norm_num) (le_max_left _ _)
  have hupS : 0 ≤ mkt.s0 + max (1 / 1000) (mkt.s0 * h) := by linarith
  have hdnS : 0 ≤ mkt.s0 - max (1 / 1000) (mkt.s0 * h) := by linarith
  unfold speed
  dsimp only [List.get?, Option.getD]
  rw [mkMarket_ok _ _ _ _ _ hupS hvol, mkMarket_ok _ _ _ _ _ hdnS hvol]
  simp only [bindOk]
  rw [gamma_formula bp (bumpedMarket (mkt.s0 + max (1 / 1000) (mkt.s0 * h))
      mkt.rate mkt.vol mkt.dividend mkt.exDivDate) nSteps pricingDate opt h
      (mul_nonneg hupS (by linarith)) (mul_nonneg hupS (by linarith)) hvol]
  simp only [bindOk]
  rw [gamma_formula bp (bumpedMarket (mkt.s0 - max (1 / 1000) (mkt.s0 * h))
      mkt.rate mkt.vol mkt.dividend mkt.exDivDate) nSteps pricingDate opt h
      (mul_nonneg hdnS (by linarith)) (mul_nonneg hdnS (by linarith)) hvol]
  simp only [bindOk, pureOk]
  rfl

theorem zomma_formula (bp : TreePricer) (mkt : MarketQ) (nSteps : ℕ)
    (pricingDate : ℚ) (opt : OptionQ) (h : ℚ)
    (hs0 : 0 ≤ mkt.s0) (hvol : 0 ≤ mkt.vol) (hh0 : 0 ≤ h) (hh1 : h ≤ 1)
    (hzm : max (1 / 10000) (mkt.vol * h) ≤ mkt.vol) :
    zomma bp [PyVal.vMkt mkt, PyVal.vSteps nSteps, PyVal.vDate pricingDate,
      PyVal.vOpt opt] (some h) =
      .ok (specZommaStencil bp mkt nSteps pricingDate opt h) := by
  have heps : 0 ≤ max (1 / 10000) (mkt.vol * h) :=
    le_trans (by norm_num) (le_max_left _ _)
  have hupV : 0 ≤ mkt.vol + max (1 / 10000) (mkt.vol * h) := by linarith
  have hdnV : 0 ≤ mkt.vol - max (1 / 10000) (mkt.vol * h) := by linarith
  unfold zomma
  dsimp only [List.get?, Option.getD]
  rw [mkMarket_ok _ _ _ _ _ hs0 hupV, mkMarket_ok _ _ _ _ _ hs0 hdnV]
  simp only [bindOk]
  rw [gamma_formula bp (bumpedMarket mkt.s0 mkt.rate
      (mkt.vol + max (1 / 10000) (mkt.vol * h)) mkt.dividend mkt.exDivDate)
      nSteps pricingDate opt h
      (mul_nonneg hs0 (by linarith)) (mul_nonneg hs0 (by linarith)) hupV]
  simp only [bindOk]
  rw [gamma_formula bp (bumpedMarket mkt.s0 mkt.rate
      (mkt.vol - max (1 / 10000) (mkt.vol * h)) mkt.dividend mkt.exDivDate)
      nSteps pricingDate opt h
      (mul_nonneg hs0 (by linarith)) (mul_nonneg hs0 (by linarith)) hdnV]
  simp only [bindOk, pureOk]
  rfl

theorem dividendRho_formula (bp : TreePricer) (mkt : MarketQ) (nSteps : ℕ)
    (pricingDate : ℚ) (opt : OptionQ) (h : ℚ)
    (hs0 : 0 ≤ mkt.s0) (hvol : 0 ≤ mkt.vol) :
    dividendRho bp [PyVal.vMkt mkt, PyVal.vSteps nSteps, PyVal.vDate pricingDate,
      PyVal.vOpt opt] (some h) =
      .ok (specDividendRhoClamped bp mkt nSteps pricingDate opt h) := by
  unfold dividendRho
  dsimp only [List.get?, Option.getD]
  rw [mkMarket_ok _ _ _ _ _ hs0 hvol, mkMarket_ok _ _ _ _ _ hs0 hvol]
  simp only [bindOk, pureOk]
  rfl

/-- A date-sensitive stand-in for the tree pricer: price = (valuation
date)^2. Any pricer whose output varies with the valuation date exhibits
the asymmetry of the `theta` estimator. -/
def bpDateSquare : TreePricer := fun pp _ _ => pp.pricingDate ^ 2

/-- A constant stand-in for the tree pricer. -/
def bpZero : TreePricer := fun _ _ _ => 0

/-- C9 counterexample: `theta` is not the symmetric central stencil the
claim asserts. With the date-sensitive pricer, at valuation date 0 with
`days = 1`, `theta` returns `(f(1) - f(0))/1 = 1` while the claimed central
stencil `(f(1) - f(-1))/2` is `0`. -/
theorem greeks_theta_counterexample :
    theta bpDateSquare mdPlain 4 0 odPlain 1 = 1 ∧
    specThetaCentral bpDateSquare mdPlain 4 0 odPlain 1 = 0 ∧
    theta bpDateSquare mdPlain 4 0 odPlain 1 ≠
      specThetaCentral bpDateSquare mdPlain 4 0 odPlain 1 := by
  refine ⟨?_, ?_, ?_⟩ <;>
    norm_num [theta, specThetaCentral, priceFD, bpDateSquare]

/-- C9 amended: Delta, Gamma, Vega, Rho, Vanna and Vomma combine
backward-induction prices of symmetrically perturbed markets via the
standard central-difference stencils; Theta and Charm are one-sided
forward differences in the valuation date; Speed and Zomma are central
differences of the Gamma estimator in spot and volatility; dividend-Rho
clamps its down bump at zero yet still divides by `2 h`; Lambda divides
the Delta estimate by the base price (0 when that price is 0); and every
estimator prices through `_price`, which builds
`PricerParameters(date, steps, pruning=True, p_min=1e-7)` and uses the
backward algorithm. -/
theorem greeks_stencils (bp : TreePricer) (mkt : MarketQ) (nSteps : ℕ)
    (pricingDate : ℚ) (opt : OptionQ) (h hs hsig days : ℚ)
    (hs0 : 0 ≤ mkt.s0) (hvol : 0 ≤ mkt.vol)
    (hh0 : 0 ≤ h) (hh1 : h ≤ 1)
    (hhs0 : 0 ≤ hs) (hhs1 : hs ≤ 1) (hsg0 : 0 ≤ hsig) (hsg1 : hsig ≤ 1)
    (hsp : max (1 / 1000) (mkt.s0 * h) ≤ mkt.s0)
    (hzm : max (1 / 10000) (mkt.vol * h) ≤ mkt.vol) :
    delta bp mkt nSteps pricingDate opt h =
      .ok (specDeltaStencil bp mkt nSteps pricingDate opt h) ∧
    gamma bp mkt nSteps pricingDate opt h =
      .ok (specGammaStencil bp mkt nSteps pricingDate opt h) ∧
    vega bp mkt nSteps pricingDate opt h =
      .ok (specVegaStencil bp mkt nSteps pricingDate opt h) ∧
    rho bp mkt nSteps pricingDate opt h =
      .ok (specRhoStencil bp mkt nSteps pricingDate opt h) ∧
    vanna bp mkt nSteps pricingDate opt hs hsig =
      .ok (specVannaStencil bp mkt nSteps pricingDate opt hs hsig) ∧
    vomma bp mkt nSteps pricingDate opt h =
      .ok (specVommaStencil bp mkt nSteps pricingDate opt h) ∧
    theta bp mkt nSteps pricingDate opt days =
      specThetaForward bp mkt nSteps pricingDate opt days ∧
    charm bp [PyVal.vMkt mkt, PyVal.vSteps nSteps, PyVal.vDate pricingDate,
      PyVal.vOpt opt] (some days) (some h) =
      .ok (specCharmForward bp mkt nSteps pricingDate opt days h) ∧
    speed bp [PyVal.vMkt mkt, PyVal.vSteps nSteps, PyVal.vDate pricingDate,
      PyVal.vOpt opt] (some h) =
      .ok (specSpeedStencil bp mkt nSteps pricingDate opt h) ∧
    zomma bp [PyVal.vMkt mkt, PyVal.vSteps nSteps, PyVal.vDate pricingDate,
      PyVal.vOpt opt] (some h) =
      .ok (specZommaStencil bp mkt nSteps pricingDate opt h) ∧
    dividendRho bp [PyVal.vMkt mkt, PyVal.vSteps nSteps, PyVal.vDate pricingDate,
      PyVal.vOpt opt] (some h) =
      .ok (specDividendRhoClamped bp mkt nSteps pricingDate opt h) ∧
    lambdaElasticity bp mkt nSteps pricingDate opt h =
      .ok (specLambdaFormula bp mkt nSteps pricingDate opt h) ∧
    priceFD bp mkt opt pricingDate nSteps =
      bp { pricingDate := pricingDate
           nbSteps := nSteps
           pruning := true
           pMin := some (1 / 10 ^ 7) } mkt opt := by
  have hu : 0 ≤ mkt.s0 * (1 + h) := mul_nonneg hs0 (by linarith)
  have hd : 0 ≤ mkt.s0 * (1 - h) := mul_nonneg hs0 (by linarith)
  have hvu : 0 ≤ mkt.vol * (1 + h) := mul_nonneg hvol (by linarith)
  have hvd : 0 ≤ mkt.vol * (1 - h) := mul_nonneg hvol (by linarith)
  have hsu : 0 ≤ mkt.s0 * (1 + hs) := mul_nonneg hs0 (by linarith)
  have hsd : 0 ≤ mkt.s0 * (1 - hs) := mul_nonneg hs0 (by linarith)
  have hgu : 0 ≤ mkt.vol * (1 + hsig) := mul_nonneg hvol (by linarith)
  have hgd : 0 ≤ mkt.vol * (1 - hsig) := mul_nonneg hvol (by linarith)
  exact ⟨delta_formula bp mkt nSteps pricingDate opt h hu hd hvol,
    gamma_formula bp mkt nSteps pricingDate opt h hu hd hvol,
    vega_formula bp mkt nSteps pricingDate opt h hs0 hvu hvd,
    rho_formula bp mkt nSteps pricingDate opt h hs0 hvol,
    vanna_formula bp mkt nSteps pricingDate opt hs hsig hsu hsd hgu hgd,
    vomma_formula bp mkt nSteps pricingDate opt h hs0 hvu hvd,
    theta_formula bp mkt nSteps pricingDate opt days,
    charm_formula bp mkt nSteps pricingDate opt days h hu hd hvol,
    speed_formula bp mkt nSteps pricingDate opt h hs0 hvol hh0 hh1 hsp,
    zomma_formula bp mkt nSteps pricingDate opt h hs0 hvol hh0 hh1 hzm,
    dividendRho_formula bp mkt nSteps pricingDate opt h hs0 hvol,
    lambda_formula bp mkt nSteps pricingDate opt h hu hd hvol,
    rfl⟩

/-- Witness for the amended C9 at a concrete market, option and bumps. -/
theorem greeks_stencils_witness :
    ((0 : ℚ) ≤ mdPlain.s0 ∧ (0 : ℚ) ≤ mdPlain.vol ∧
      (0 : ℚ) ≤ 1 / 100 ∧ (1 : ℚ) / 100 ≤ 1 ∧
      max (1 / 1000) (mdPlain.s0 * (1 / 100)) ≤ mdPlain.s0 ∧
      max (1 / 10000) (mdPlain.vol * (1 / 100)) ≤ mdPlain.vol) ∧
    (delta bpZero mdPlain 4 0 odPlain (1 / 100) =
      .ok (specDeltaStencil bpZero mdPlain 4 0 odPlain (1 / 100)) ∧
    gamma bpZero mdPlain 4 0 odPlain (1 / 100) =
      .ok (specGammaStencil bpZero mdPlain 4 0 odPlain (1 / 100)) ∧
    vega bpZero mdPlain 4 0 odPlain (1 / 100) =
      .ok (specVegaStencil bpZero mdPlain 4 0 odPlain (1 / 100)) ∧
    rho bpZero mdPlain 4 0 odPlain (1 / 100) =
      .ok (specRhoStencil bpZero mdPlain 4 0 odPlain (1 / 100)) ∧
    vanna bpZero mdPlain 4 0 odPlain (1 / 100) (1 / 100) =
      .ok (specVannaStencil bpZero mdPlain 4 0 odPlain (1 / 100) (1 / 100)) ∧
    vomma bpZero mdPlain 4 0 odPlain (1 / 100) =
      .ok (specVommaStencil bpZero mdPlain 4 0 odPlain (1 / 100)) ∧
    theta bpZero mdPlain 4 0 odPlain 1 =
      specThetaForward bpZero mdPlain 4 0 odPlain 1 ∧
    charm bpZero [PyVal.vMkt mdPlain, PyVal.vSteps 4, PyVal.vDate 0,
      PyVal.vOpt odPlain] (some 1) (some (1 / 100)) =
      .ok (specCharmForward bpZero mdPlain 4 0 odPlain 1 (1 / 100)) ∧
    speed bpZero [PyVal.vMkt mdPlain, PyVal.vSteps 4, PyVal.vDate 0,
      PyVal.vOpt odPlain] (some (1 / 100)) =
      .ok (specSpeedStencil bpZero mdPlain 4 0 odPlain (1 / 100)) ∧
    zomma bpZero [PyVal.vMkt mdPlain, PyVal.vSteps 4, PyVal.vDate 0,
      PyVal.vOpt odPlain] (some (1 / 100)) =
      .ok (specZommaStencil bpZero mdPlain 4 0 odPlain (1 / 100)) ∧
    dividendRho bpZero [PyVal.vMkt mdPlain, PyVal.vSteps 4, PyVal.vDate 0,
      PyVal.vOpt odPlain] (some (1 / 100)) =
      .ok (specDividendRhoClamped bpZero mdPlain 4 0 odPlain (1 / 100)) ∧
    lambdaElasticity bpZero mdPlain 4 0 odPlain (1 / 100) =
      .ok (specLambdaFormula bpZero mdPlain 4 0 odPlain (1 / 100)) ∧
    priceFD bpZero mdPlain odPlain 0 4 =
      bpZero { pricingDate := 0
               nbSteps := 4
               pruning := true
               pMin := some (1 / 10 ^ 7) } mdPlain odPlain) := by
  have h1 : (0 : ℚ) ≤ mdPlain.s0 := by norm_num [mdPlain]
  have h2 : (0 : ℚ) ≤ mdPlain.vol := by norm_num [mdPlain]
  have h5 : max (1 / 1000) (mdPlain.s0 * (1 / 100)) ≤ mdPlain.s0 := by
    norm_num [mdPlain, max_def]
  have h6 : max (1 / 10000) (mdPlain.vol * (1 / 100)) ≤ mdPlain.vol := by
    norm_num [mdPlain, max_def]
  exact ⟨⟨h1, h2, by norm_num, by norm_num, h5, h6⟩,
    greeks_stencils bpZero mdPlain 4 0 odPlain (1 / 100) (1 / 100) (1 / 100) 1
      h1 h2 (by norm_num) (by norm_num) (by norm_num) (by norm_num)
      (by norm_num) (by norm_num) h5 h6⟩

/-- C10: each of the `*args` estimators returns `0.0` — and raises no
exception — when called with fewer than four positional arguments. -/
theorem starargs_short_returns_zero (bp : TreePricer) (args : List PyVal)
    (kwDays kwH : Option ℚ) (hlen : args.length < 4) :
    charm bp args kwDays kwH = .ok 0 ∧
    speed bp args kwH = .ok 0 ∧
    zomma bp args kwH = .ok 0 ∧
    dividendRho bp args kwH = .ok 0 := by
  have h3 : args.get? 3 = none := by
    rw [List.get?_eq_none]
    omega
  unfold charm speed zomma dividendRho
  rw [h3]
  rcases h0 : args.get? 0 with _ | a0 <;>
    rcases h1 : args.get? 1 with _ | a1 <;>
    rcases h2 : args.get? 2 with _ | a2 <;>
    exact ⟨rfl, rfl, rfl, rfl⟩

/-- Witness for C10 on the empty argument list. -/
theorem starargs_short_returns_zero_witness :
    ([] : List PyVal).length < 4 ∧
    (charm bpZero [] none none = .ok 0 ∧
      speed bpZero [] none = .ok 0 ∧
      zomma bpZero [] none = .ok 0 ∧
      dividendRho bpZero [] none = .ok 0) :=
  ⟨by norm_num, starargs_short_returns_zero bpZero [] none none (by norm_num)⟩

end TrinomialPricer
